import Mathlib

/-!
Verification of the guarded page-navigation controller in `page_classes.py`
(class `PageManager`, with `Page` and the `Progress` observer boundary).

The controller state is embedded shallowly:
* a `Page` carries its two guard callables; a guard may be stateful in
  Python, so it is modelled as a function of its own call counter
  (`enter : Nat → Bool` receives the number of earlier `enter_page()` calls);
* the `PageManager` fields `_pages`, `_page_count`, `_current_page`,
  `_up_to`, `_enforce_upto` are carried verbatim (Python ints as `Int`);
* calls out to the `Progress` observer (`progress.change_page`,
  `progress.add_pages`, `progress.remove_page`) and the guard invocations
  are recorded in an event `trace`;
* Python list indexing (with its negative-index semantics) is `pyIdx`;
  an `IndexError` surfaces as `none`, so every fallible operation returns
  an `Option`.
-/

namespace ProgressionGUI

/-- One observable event of a controller run: a guard invocation (with the
boolean the guard returned) or a notification sent to the progress
observer. -/
inductive Event where
  | enterCall (pid : Int) (result : Bool)
  | leaveCall (pid : Int) (result : Bool)
  | notifyPageChanged (pid : Int)
  | notifyPagesAdded (n : Nat)
  | notifyPageRemoved (pid : Int)
  deriving DecidableEq, Repr

/-- A `Page` from `page_classes.py`: a holder for the two guard callables.
`enter n` is the value returned by the `n`-th call of `enter_page()`
(counting from 0), so arbitrary deterministic stateful Python guards are
representable; `enterCount`/`leaveCount` store how often each guard has
been called so far. -/
structure Page where
  enter : Nat → Bool
  leave : Nat → Bool
  enterCount : Nat
  leaveCount : Nat

/-- A fresh page, as built by `Page.__init__` from the two callables. -/
def mkPage (e l : Nat → Bool) : Page :=
  ⟨e, l, 0, 0⟩

/-- A page whose two guards constantly return `True` (the defaults of
`Page.__init__`). -/
def pT : Page := mkPage (fun _ => true) (fun _ => true)

/-- A page whose enter guard constantly returns `False` (leave `True`). -/
def pEF : Page := mkPage (fun _ => false) (fun _ => true)

/-- A page whose leave guard constantly returns `False` (enter `True`). -/
def pLF : Page := mkPage (fun _ => true) (fun _ => false)

/-- The mutable state of a `PageManager` instance: the `_pages` list,
`_page_count`, `_current_page`, `_up_to`, `_enforce_upto`, plus the trace
of guard calls and observer notifications. -/
structure PageManager where
  pages : List Page
  pageCount : Int
  currentPage : Int
  upTo : Int
  enforceUpto : Bool
  trace : List Event

/-- Python list-index resolution for a list of length `n`: index `i` with
`0 ≤ i < n` resolves to `i`, an index `-n ≤ i < 0` resolves to `n + i`,
anything else raises `IndexError` (`none`). -/
def pyIdx (n : Nat) (i : Int) : Option Nat :=
  if 0 ≤ i ∧ i < (n : Int) then some i.toNat
  else if -(n : Int) ≤ i ∧ i < 0 then some ((n : Int) + i).toNat
  else none

/-- `self._pages[pid].enter_page()`: resolve the index, call the page's
enter guard, bump its call counter.  Returns the updated list and the
boolean the guard returned. -/
def callEnter (pages : List Page) (pid : Int) : Option (List Page × Bool) :=
  match pyIdx pages.length pid with
  | none => none
  | some j =>
    match pages[j]? with
    | none => none
    | some p =>
      some (pages.set j { p with enterCount := p.enterCount + 1 },
            p.enter p.enterCount)

/-- `self._pages[pid].leave_page()`: like `callEnter` for the leave guard. -/
def callLeave (pages : List Page) (pid : Int) : Option (List Page × Bool) :=
  match pyIdx pages.length pid with
  | none => none
  | some j =>
    match pages[j]? with
    | none => none
    | some p =>
      some (pages.set j { p with leaveCount := p.leaveCount + 1 },
            p.leave p.leaveCount)

/-- `PageManager._open_page(page_id=None)`: default the id to
`_current_page`, call the enter guard; on `True` set `_current_page`,
raise `_up_to`, notify the progress observer and return `True`; on
`False` change nothing else and return `False`. -/
def open_page (s : PageManager) (pid? : Option Int) : Option (PageManager × Bool) :=
  let pid := pid?.getD s.currentPage
  match callEnter s.pages pid with
  | none => none
  | some (ps, r) =>
    if r then
      some ({ s with pages := ps,
                     currentPage := pid,
                     upTo := if s.upTo < pid then pid else s.upTo,
                     trace := s.trace ++
                       [.enterCall pid true, .notifyPageChanged pid] }, true)
    else
      some ({ s with pages := ps,
                     trace := s.trace ++ [.enterCall pid false] }, false)

/-- `PageManager._close_page()`: call the current page's leave guard and
return its verdict. -/
def close_page (s : PageManager) : Option (PageManager × Bool) :=
  match callLeave s.pages s.currentPage with
  | none => none
  | some (ps, r) =>
    some ({ s with pages := ps,
                   trace := s.trace ++ [.leaveCall s.currentPage r] }, r)

/-- `PageManager.skip_to_page(page_id)`:
`if page_id > self._up_to+1 or not self._open_page(page_id):
self._open_page(); return False` — note the short-circuit: on denial the
target is never opened, and either failure reopens the current page. -/
def skip_to_page (s : PageManager) (pid : Int) : Option (PageManager × Bool) :=
  if pid > s.upTo + 1 then
    match open_page s none with
    | none => none
    | some (s1, _) => some (s1, false)
  else
    match open_page s (some pid) with
    | none => none
    | some (s1, r) =>
      if r then some (s1, true)
      else
        match open_page s1 none with
        | none => none
        | some (s2, _) => some (s2, false)

/-- `PageManager._can_skim_next(page_id)`. -/
def can_skim_next (s : PageManager) (pid : Int) : Bool :=
  if s.enforceUpto then
    decide (s.upTo > s.currentPage) && decide (s.currentPage < pid - 1)
  else
    decide (s.currentPage < pid - 1)

/-- `can_skim_next` only holds when the current page is at least two
indices before the target. -/
theorem can_skim_next_lt {s : PageManager} {pid : Int}
    (h : can_skim_next s pid = true) : s.currentPage < pid - 1 := by
  unfold can_skim_next at h
  split at h <;> simp_all

/-- `can_skim_next` is falsified whenever the target is at most one past
the current page. -/
theorem can_skim_next_false {s : PageManager} {pid : Int}
    (h : ¬ s.currentPage < pid - 1) : ¬ can_skim_next s pid = true :=
  fun hx => h (can_skim_next_lt hx)

/-- The `while self._can_skim_next(page_id)` loop of
`PageManager.change_page`, followed by the final
`return self.skip_to_page(page_id)`.  Each iteration increments
`_current_page`, runs the enter guard (falling back to
`_open_page(_current_page - 1)` and returning `False` if it vetoes), then
the leave guard (falling back to `_open_page()` and returning `False` if
it vetoes), else raises `_up_to` and continues. -/
def skimLoop (s : PageManager) (pid : Int) : Option (PageManager × Bool) :=
  if h : can_skim_next s pid = true then
    let c := s.currentPage + 1
    match callEnter s.pages c with
    | none => none
    | some (ps, r) =>
      let s1 : PageManager :=
        { s with currentPage := c, pages := ps,
                 trace := s.trace ++ [.enterCall c r] }
      if r = false then
        match open_page s1 (some (c - 1)) with
        | none => none
        | some (s2, _) => some (s2, false)
      else
        match callLeave s1.pages c with
        | none => none
        | some (ps2, r2) =>
          let s2 : PageManager :=
            { s1 with pages := ps2, trace := s1.trace ++ [.leaveCall c r2] }
          if r2 = false then
            match open_page s2 none with
            | none => none
            | some (s3, _) => some (s3, false)
          else
            skimLoop { s2 with upTo := if s2.upTo < c then c else s2.upTo } pid
  else
    skip_to_page s pid
termination_by (pid - s.currentPage).toNat
decreasing_by
  have hlt := can_skim_next_lt h
  omega

/-- Fuel-indexed structural twin of `skimLoop`, used to evaluate concrete
runs by kernel reduction (the well-founded `skimLoop` does not reduce
definitionally).  `skimLoopF_eq` shows it agrees with `skimLoop` whenever
the fuel exceeds the loop's iteration bound. -/
def skimLoopF : Nat → PageManager → Int → Option (PageManager × Bool)
  | 0, s, pid => skip_to_page s pid
  | f + 1, s, pid =>
    if can_skim_next s pid = true then
      let c := s.currentPage + 1
      match callEnter s.pages c with
      | none => none
      | some (ps, r) =>
        let s1 : PageManager :=
          { s with currentPage := c, pages := ps,
                   trace := s.trace ++ [.enterCall c r] }
        if r = false then
          match open_page s1 (some (c - 1)) with
          | none => none
          | some (s2, _) => some (s2, false)
        else
          match callLeave s1.pages c with
          | none => none
          | some (ps2, r2) =>
            let s2 : PageManager :=
              { s1 with pages := ps2, trace := s1.trace ++ [.leaveCall c r2] }
            if r2 = false then
              match open_page s2 none with
              | none => none
              | some (s3, _) => some (s3, false)
            else
              skimLoopF f { s2 with upTo := if s2.upTo < c then c else s2.upTo } pid
    else
      skip_to_page s pid

/-- The fuel twin computes `skimLoop` once the fuel bounds the remaining
iterations. -/
theorem skimLoopF_eq : ∀ (f : Nat) (s : PageManager) (pid : Int),
    (pid - s.currentPage).toNat < f → skimLoopF f s pid = skimLoop s pid := by
  intro f
  induction f with
  | zero => intro s pid h; omega
  | succ f IH =>
    intro s pid h
    rw [skimLoop]
    by_cases hc : can_skim_next s pid = true
    · have hlt := can_skim_next_lt hc
      cases hE : callEnter s.pages (s.currentPage + 1) with
      | none => simp [skimLoopF, hc, hE]
      | some pr =>
        obtain ⟨ps, r⟩ := pr
        cases r with
        | false => simp [skimLoopF, hc, hE]
        | true =>
          cases hL : callLeave ps (s.currentPage + 1) with
          | none => simp [skimLoopF, hc, hE, hL]
          | some pr2 =>
            obtain ⟨ps2, r2⟩ := pr2
            cases r2 with
            | false => simp [skimLoopF, hc, hE, hL]
            | true =>
              simp only [skimLoopF, hc, if_true, hE, hL, dif_pos]
              exact IH _ _ (by simp; omega)
    · simp [skimLoopF, hc]

/-- `PageManager.change_page(page_id=None)`: default to the next page;
reject out-of-range targets or a vetoed close with `False`; delegate
backward moves to `skip_to_page`; otherwise run the skim loop. -/
def change_page (s : PageManager) (pid? : Option Int) : Option (PageManager × Bool) :=
  let pid := pid?.getD (s.currentPage + 1)
  if pid ≥ s.pageCount ∨ pid < 0 then some (s, false)
  else
    match close_page s with
    | none => none
    | some (s1, r) =>
      if r = false then some (s1, false)
      else if pid < s1.currentPage then skip_to_page s1 pid
      else skimLoop s1 pid

/-- Structural twin of `change_page` with explicit fuel for the skim
loop; agrees with `change_page` by `change_page_eval`. -/
def change_pageF (s : PageManager) (pid? : Option Int) : Option (PageManager × Bool) :=
  let pid := pid?.getD (s.currentPage + 1)
  if pid ≥ s.pageCount ∨ pid < 0 then some (s, false)
  else
    match close_page s with
    | none => none
    | some (s1, r) =>
      if r = false then some (s1, false)
      else if pid < s1.currentPage then skip_to_page s1 pid
      else skimLoopF ((pid - s1.currentPage).toNat + 1) s1 pid

/-- `change_page` can be evaluated through its structural twin. -/
theorem change_page_eval (s : PageManager) (pid? : Option Int) :
    change_page s pid? = change_pageF s pid? := by
  unfold change_page change_pageF
  by_cases hout : pid?.getD (s.currentPage + 1) ≥ s.pageCount ∨
      pid?.getD (s.currentPage + 1) < 0
  · simp [hout]
  · simp only [hout, if_false]
    cases hcl : close_page s with
    | none => rfl
    | some pr =>
      obtain ⟨s1, r⟩ := pr
      cases r with
      | false => rfl
      | true =>
        have hne : ¬ (true = false) := by simp
        dsimp only
        rw [if_neg hne, if_neg hne]
        by_cases hbk : pid?.getD (s.currentPage + 1) < s1.currentPage
        · simp [hbk]
        · rw [if_neg hbk, if_neg hbk]
          exact (skimLoopF_eq _ _ _ (Nat.lt_succ_self _)).symm

/-- `PageManager.add_pages(*pages)`: append the pages and count them; if
no page is current while pages exist, set `_current_page = 0` and attempt
`_open_page()`; finally notify the progress observer of the number of
pages added. -/
def add_pages (s : PageManager) (new : List Page) : Option PageManager :=
  let s1 : PageManager :=
    { s with pages := s.pages ++ new,
             pageCount := s.pageCount + new.length }
  let s2? : Option PageManager :=
    if s1.currentPage < 0 ∧ s1.pageCount > 0 then
      match open_page { s1 with currentPage := 0 } none with
      | none => none
      | some (s2, _) => some s2
    else some s1
  match s2? with
  | none => none
  | some s2 => some { s2 with trace := s2.trace ++ [.notifyPagesAdded new.length] }

/-- `PageManager.remove_page(page_id)`: pop the page, decrement
`_page_count`, decrement `_current_page` and `_up_to` when they are
`≥ page_id`, and notify the progress observer. -/
def remove_page (s : PageManager) (pid : Int) : Option PageManager :=
  match pyIdx s.pages.length pid with
  | none => none
  | some j =>
    some { s with pages := s.pages.eraseIdx j,
                  pageCount := s.pageCount - 1,
                  currentPage := if s.currentPage ≥ pid then s.currentPage - 1
                                 else s.currentPage,
                  upTo := if s.upTo ≥ pid then s.upTo - 1 else s.upTo,
                  trace := s.trace ++ [.notifyPageRemoved pid] }

/-- `PageManager.get_page(page_id=None)`: default to the current page and
index the `_pages` list (Python semantics, so `-1` silently means the
last element). -/
def get_page (s : PageManager) (pid? : Option Int) : Option Page :=
  let pid := pid?.getD s.currentPage
  match pyIdx s.pages.length pid with
  | none => none
  | some j => s.pages[j]?

/-- `PageManager.get_upto()`. -/
def get_upto (s : PageManager) : Int := s.upTo

/-- `PageManager.get_page_count()`. -/
def get_page_count (s : PageManager) : Int := s.pageCount

/-- `PageManager.get_current_page_id()`. -/
def get_current_page_id (s : PageManager) : Int := s.currentPage

/-- The state set up by `PageManager._setup_pages(up_to)` before any page
is added: no pages, `_page_count = 0`, `_current_page = -1`. -/
def freshPM (upTo : Int) (enforce : Bool) : PageManager :=
  ⟨[], 0, -1, upTo, enforce, []⟩

/-- `PageManager.__init__(pages, up_to, enforce_upto)`: set up the empty
state and run `add_pages(*pages)`. -/
def mkPM (pages : List Page) (upTo : Int) (enforce : Bool) : Option PageManager :=
  add_pages (freshPM upTo enforce) pages

/-- The navigation triple `(upTo, pageCount, currentPage)` in the order
the specification's scenarios use. -/
def navOf (s : PageManager) : Int × Int × Int :=
  (s.upTo, s.pageCount, s.currentPage)

/-- Scenario B sanity check: construction with four always-true pages and
`up_to = 1` yields the navigation triple `(1, 4, 0)`. -/
example : (mkPM [pT, pT, pT, pT] 1 false).map navOf = some (1, 4, 0) := rfl

/-! ### Index-resolution lemmas -/

/-- Index `i` resolves against a list of length `n` without `IndexError`. -/
def inRange (n : Nat) (i : Int) : Prop :=
  -(n : Int) ≤ i ∧ i < (n : Int)

theorem pyIdx_nonneg {n : Nat} {i : Int} (h0 : 0 ≤ i) (h1 : i < (n : Int)) :
    pyIdx n i = some i.toNat := by
  unfold pyIdx
  rw [if_pos ⟨h0, h1⟩]

theorem pyIdx_neg {n : Nat} {i : Int} (h0 : -(n : Int) ≤ i) (h1 : i < 0) :
    pyIdx n i = some ((n : Int) + i).toNat := by
  unfold pyIdx
  rw [if_neg (by omega), if_pos ⟨h0, h1⟩]

theorem pyIdx_isSome {n : Nat} {i : Int} (h : inRange n i) :
    ∃ j, pyIdx n i = some j ∧ j < n := by
  obtain ⟨h0, h1⟩ := h
  by_cases hi : 0 ≤ i
  · exact ⟨i.toNat, pyIdx_nonneg hi h1, by omega⟩
  · exact ⟨((n : Int) + i).toNat, pyIdx_neg h0 (by omega), by omega⟩

/-! ### Guard-call characterizations -/

/-- Exact shape of `callEnter` once the index resolves. -/
theorem callEnter_eq {pages : List Page} {pid : Int} {j : Nat} {p : Page}
    (hj : pyIdx pages.length pid = some j) (hp : pages[j]? = some p) :
    callEnter pages pid =
      some (pages.set j { p with enterCount := p.enterCount + 1 },
            p.enter p.enterCount) := by
  unfold callEnter
  rw [hj]
  dsimp only
  rw [hp]

/-- Exact shape of `callLeave` once the index resolves. -/
theorem callLeave_eq {pages : List Page} {pid : Int} {j : Nat} {p : Page}
    (hj : pyIdx pages.length pid = some j) (hp : pages[j]? = some p) :
    callLeave pages pid =
      some (pages.set j { p with leaveCount := p.leaveCount + 1 },
            p.leave p.leaveCount) := by
  unfold callLeave
  rw [hj]
  dsimp only
  rw [hp]

/-! ### Open/close characterizations -/

/-- Exact shape of `open_page` once the index resolves. -/
theorem open_page_eq {s : PageManager} {pid? : Option Int} {j : Nat} {p : Page}
    (hj : pyIdx s.pages.length (pid?.getD s.currentPage) = some j)
    (hp : s.pages[j]? = some p) :
    open_page s pid? =
      (if p.enter p.enterCount then
        some ({ s with pages := s.pages.set j { p with enterCount := p.enterCount + 1 },
                       currentPage := pid?.getD s.currentPage,
                       upTo := if s.upTo < pid?.getD s.currentPage
                               then pid?.getD s.currentPage else s.upTo,
                       trace := s.trace ++
                         [.enterCall (pid?.getD s.currentPage) true,
                          .notifyPageChanged (pid?.getD s.currentPage)] }, true)
      else
        some ({ s with pages := s.pages.set j { p with enterCount := p.enterCount + 1 },
                       trace := s.trace ++
                         [.enterCall (pid?.getD s.currentPage) false] }, false)) := by
  unfold open_page
  dsimp only
  rw [callEnter_eq hj hp]

theorem open_page_char (s : PageManager) (pid? : Option Int)
    (h : inRange s.pages.length (pid?.getD s.currentPage)) :
    ∃ s' b, open_page s pid? = some (s', b) ∧
      s'.pages.length = s.pages.length ∧
      s'.pageCount = s.pageCount ∧
      s'.enforceUpto = s.enforceUpto ∧
      (b = true →
        s'.currentPage = pid?.getD s.currentPage ∧
        s'.upTo = (if s.upTo < pid?.getD s.currentPage
                   then pid?.getD s.currentPage else s.upTo) ∧
        s'.trace = s.trace ++
          [.enterCall (pid?.getD s.currentPage) true,
           .notifyPageChanged (pid?.getD s.currentPage)]) ∧
      (b = false →
        s'.currentPage = s.currentPage ∧ s'.upTo = s.upTo ∧
        s'.trace = s.trace ++ [.enterCall (pid?.getD s.currentPage) false]) := by
  obtain ⟨j, hj, hjlt⟩ := pyIdx_isSome h
  rw [open_page_eq hj (List.getElem?_eq_getElem hjlt)]
  cases hr : (s.pages[j]).enter (s.pages[j]).enterCount with
  | true =>
    rw [if_pos rfl]
    exact ⟨_, true, rfl, by simp, rfl, rfl,
           fun _ => ⟨rfl, rfl, rfl⟩, by simp⟩
  | false =>
    rw [if_neg (by simp)]
    exact ⟨_, false, rfl, by simp, rfl, rfl,
           by simp, fun _ => ⟨rfl, rfl, rfl⟩⟩

/-- Exact shape of `close_page` once the current index resolves. -/
theorem close_page_eq {s : PageManager} {j : Nat} {p : Page}
    (hj : pyIdx s.pages.length s.currentPage = some j)
    (hp : s.pages[j]? = some p) :
    close_page s =
      some ({ s with pages := s.pages.set j { p with leaveCount := p.leaveCount + 1 },
                     trace := s.trace ++
                       [.leaveCall s.currentPage (p.leave p.leaveCount)] },
            p.leave p.leaveCount) := by
  unfold close_page
  rw [callLeave_eq hj hp]

theorem close_page_char (s : PageManager)
    (h : inRange s.pages.length s.currentPage) :
    ∃ s' r, close_page s = some (s', r) ∧
      s'.pages.length = s.pages.length ∧
      s'.pageCount = s.pageCount ∧
      s'.currentPage = s.currentPage ∧
      s'.upTo = s.upTo ∧
      s'.enforceUpto = s.enforceUpto ∧
      s'.trace = s.trace ++ [.leaveCall s.currentPage r] := by
  obtain ⟨j, hj, hjlt⟩ := pyIdx_isSome h
  rw [close_page_eq hj (List.getElem?_eq_getElem hjlt)]
  exact ⟨_, _, rfl, by simp, rfl, rfl, rfl, rfl, rfl⟩

/-! ### The structural invariant and run bookkeeping -/

/-- The structural invariant maintained by every valid public operation:
`_page_count` matches the list, and `_current_page` lies in
`[-1, _page_count)` with `-1` forced on an empty manager. -/
def Inv (s : PageManager) : Prop :=
  s.pageCount = (s.pages.length : Int) ∧
  -1 ≤ s.currentPage ∧ s.currentPage < s.pageCount ∧
  (s.pageCount = 0 → s.currentPage = -1)

/-- `guardOk e` is `false` exactly when `e` records a guard veto. -/
def guardOk : Event → Bool
  | .enterCall _ r => r
  | .leaveCall _ r => r
  | _ => true

/-- Characterization of `skip_to_page` for an in-range target from an
invariant state: it never raises, preserves the invariant and the page
count, only appends to the trace, and succeeds only when every guard it
ran accepted (landing on the target). -/
theorem skip_char (s : PageManager) (hInv : Inv s) (pid : Int)
    (h0 : 0 ≤ pid) (h1 : pid < s.pageCount) :
    ∃ s' b t, skip_to_page s pid = some (s', b) ∧ Inv s' ∧
      s'.pageCount = s.pageCount ∧ s'.enforceUpto = s.enforceUpto ∧
      s'.trace = s.trace ++ t ∧
      (b = true → t.all guardOk = true ∧ s'.currentPage = pid) := by
  obtain ⟨hc, hm1, hlt, hz⟩ := hInv
  have hcur : inRange s.pages.length s.currentPage := ⟨by omega, by omega⟩
  unfold skip_to_page
  by_cases hgt : pid > s.upTo + 1
  · rw [if_pos hgt]
    obtain ⟨s1, b1, hE, hlen, hcount, henf, htt, htf⟩ :=
      open_page_char s none hcur
    rw [hE]
    dsimp only
    cases b1 with
    | true =>
      obtain ⟨hcur1, hup1, htr1⟩ := htt rfl
      simp only [Option.getD_none] at hcur1 hup1 htr1
      exact ⟨s1, false, _, rfl, ⟨by omega, by omega, by omega, by omega⟩,
             hcount, henf, htr1, by simp⟩
    | false =>
      obtain ⟨hcur1, hup1, htr1⟩ := htf rfl
      exact ⟨s1, false, _, rfl, ⟨by omega, by omega, by omega, by omega⟩,
             hcount, henf, htr1, by simp⟩
  · rw [if_neg hgt]
    have hin2 : inRange s.pages.length pid := ⟨by omega, by omega⟩
    obtain ⟨s1, b1, hE, hlen, hcount, henf, htt, htf⟩ :=
      open_page_char s (some pid) hin2
    rw [hE]
    dsimp only
    cases b1 with
    | true =>
      obtain ⟨hcur1, hup1, htr1⟩ := htt rfl
      simp only [Option.getD_some] at hcur1 hup1 htr1
      refine ⟨s1, true, _, rfl, ⟨by omega, by omega, by omega, by omega⟩,
              hcount, henf, htr1, fun _ => ⟨?_, hcur1⟩⟩
      simp [guardOk]
    | false =>
      obtain ⟨hcur1, hup1, htr1⟩ := htf rfl
      simp only [Option.getD_some] at htr1
      have hcur1' : inRange s1.pages.length s1.currentPage :=
        ⟨by omega, by omega⟩
      obtain ⟨s2, b2, hE2, hlen2, hcount2, henf2, htt2, htf2⟩ :=
        open_page_char s1 none hcur1'
      rw [hE2]
      dsimp only
      cases b2 with
      | true =>
        obtain ⟨hcur2, hup2, htr2⟩ := htt2 rfl
        simp only [Option.getD_none] at hcur2 hup2 htr2
        have htr : s2.trace = s.trace ++
            ([Event.enterCall pid false] ++
             [Event.enterCall s1.currentPage true,
              Event.notifyPageChanged s1.currentPage]) := by
          rw [htr2, htr1, List.append_assoc]
        exact ⟨s2, false, _, rfl, ⟨by omega, by omega, by omega, by omega⟩,
               by omega, henf2.trans henf, htr, by simp⟩
      | false =>
        obtain ⟨hcur2, hup2, htr2⟩ := htf2 rfl
        simp only [Option.getD_none] at htr2
        have htr : s2.trace = s.trace ++
            ([Event.enterCall pid false] ++
             [Event.enterCall s1.currentPage false]) := by
          rw [htr2, htr1, List.append_assoc]
        exact ⟨s2, false, _, rfl, ⟨by omega, by omega, by omega, by omega⟩,
               by omega, henf2.trans henf, htr, by simp⟩

/-- Characterization of the skim loop, by induction on the distance to the
target: from an invariant state and an in-range target it never raises,
preserves the invariant, the page count and the policy flag, only appends
to the trace, and returns `True` only when every guard it ran accepted
(with the target becoming current). -/
theorem skim_char (pid : Int) : ∀ (k : Nat) (s : PageManager), Inv s →
    0 ≤ pid → pid < s.pageCount → (pid - s.currentPage).toNat ≤ k →
    ∃ s' b t, skimLoop s pid = some (s', b) ∧ Inv s' ∧
      s'.pageCount = s.pageCount ∧ s'.enforceUpto = s.enforceUpto ∧
      s'.trace = s.trace ++ t ∧
      (b = true → t.all guardOk = true ∧ s'.currentPage = pid) := by
  intro k
  induction k with
  | zero =>
    intro s hInv h0 h1 hk
    have hcs : ¬ can_skim_next s pid = true := by
      intro hc
      have := can_skim_next_lt hc
      omega
    rw [skimLoop, dif_neg hcs]
    exact skip_char s hInv pid h0 h1
  | succ k IH =>
    intro s hInv h0 h1 hk
    by_cases hc : can_skim_next s pid = true
    case neg =>
      rw [skimLoop, dif_neg hc]
      exact skip_char s hInv pid h0 h1
    case pos =>
      obtain ⟨hcnt, hm1, hltc, hz⟩ := hInv
      have hsk := can_skim_next_lt hc
      have hin : inRange s.pages.length (s.currentPage + 1) := ⟨by omega, by omega⟩
      obtain ⟨j, hj, hjlt⟩ := pyIdx_isSome hin
      have hp := List.getElem?_eq_getElem hjlt
      rw [skimLoop, dif_pos hc]
      dsimp only
      rw [callEnter_eq hj hp]
      dsimp only
      cases hEg : (s.pages[j]).enter (s.pages[j]).enterCount with
      | false =>
        rw [if_pos rfl]
        have harith : s.currentPage + 1 - 1 = s.currentPage := by omega
        rw [harith]
        have hin2 : inRange
            (s.pages.set j { s.pages[j] with
              enterCount := (s.pages[j]).enterCount + 1 }).length
            s.currentPage := by
          rw [List.length_set]
          exact ⟨by omega, by omega⟩
        obtain ⟨s2, b2, hO, hlen2, hcount2, henf2, htt2, htf2⟩ :=
          open_page_char
            { s with currentPage := s.currentPage + 1,
                     pages := s.pages.set j { s.pages[j] with
                       enterCount := (s.pages[j]).enterCount + 1 },
                     trace := s.trace ++
                       [.enterCall (s.currentPage + 1) false] }
            (some s.currentPage) hin2
        rw [hO]
        dsimp only
        dsimp only at hlen2 hcount2 henf2 htt2 htf2
        simp only [Option.getD_some] at htt2 htf2
        simp only [List.length_set] at hlen2
        cases b2 with
        | true =>
          obtain ⟨hcur2, hup2, htr2⟩ := htt2 rfl
          have htr : s2.trace = s.trace ++
              ([Event.enterCall (s.currentPage + 1) false] ++
               [Event.enterCall s.currentPage true,
                Event.notifyPageChanged s.currentPage]) := by
            rw [htr2, List.append_assoc]
          exact ⟨s2, false, _, rfl, ⟨by omega, by omega, by omega, by omega⟩,
                 by omega, henf2, htr, by simp⟩
        | false =>
          obtain ⟨hcur2, hup2, htr2⟩ := htf2 rfl
          have htr : s2.trace = s.trace ++
              ([Event.enterCall (s.currentPage + 1) false] ++
               [Event.enterCall s.currentPage false]) := by
            rw [htr2, List.append_assoc]
          exact ⟨s2, false, _, rfl, ⟨by omega, by omega, by omega, by omega⟩,
                 by omega, henf2, htr, by simp⟩
      | true =>
        rw [if_neg (by simp)]
        have hj2 : pyIdx
            (s.pages.set j { s.pages[j] with
              enterCount := (s.pages[j]).enterCount + 1 }).length
            (s.currentPage + 1) = some j := by
          rw [List.length_set]
          exact hj
        have hp2 : (s.pages.set j { s.pages[j] with
              enterCount := (s.pages[j]).enterCount + 1 })[j]? =
            some { s.pages[j] with
              enterCount := (s.pages[j]).enterCount + 1 } :=
          List.getElem?_set_self hjlt
        rw [callLeave_eq hj2 hp2]
        dsimp only
        cases hLg : (s.pages[j]).leave (s.pages[j]).leaveCount with
        | false =>
          rw [if_pos rfl]
          have hin3 : inRange
              ((s.pages.set j { s.pages[j] with
                  enterCount := (s.pages[j]).enterCount + 1 }).set j
                { s.pages[j] with
                  enterCount := (s.pages[j]).enterCount + 1,
                  leaveCount := (s.pages[j]).leaveCount + 1 }).length
              (s.currentPage + 1) := by
            rw [List.length_set, List.length_set]
            exact ⟨by omega, by omega⟩
          obtain ⟨s3, b3, hO, hlen3, hcount3, henf3, htt3, htf3⟩ :=
            open_page_char
              { s with currentPage := s.currentPage + 1,
                       pages := (s.pages.set j { s.pages[j] with
                           enterCount := (s.pages[j]).enterCount + 1 }).set j
                         { s.pages[j] with
                           enterCount := (s.pages[j]).enterCount + 1,
                           leaveCount := (s.pages[j]).leaveCount + 1 },
                       trace := (s.trace ++
                           [.enterCall (s.currentPage + 1) true]) ++
                         [.leaveCall (s.currentPage + 1) false] }
              none hin3
          rw [hO]
          dsimp only
          dsimp only at hlen3 hcount3 henf3 htt3 htf3
          simp only [Option.getD_none] at htt3 htf3
          simp only [List.length_set] at hlen3
          cases b3 with
          | true =>
            obtain ⟨hcur3, hup3, htr3⟩ := htt3 rfl
            have htr : s3.trace = s.trace ++
                ([Event.enterCall (s.currentPage + 1) true] ++
                 ([Event.leaveCall (s.currentPage + 1) false] ++
                  [Event.enterCall (s.currentPage + 1) true,
                   Event.notifyPageChanged (s.currentPage + 1)])) := by
              rw [htr3]
              simp [List.append_assoc]
            exact ⟨s3, false, _, rfl, ⟨by omega, by omega, by omega, by omega⟩,
                   by omega, henf3, htr, by simp⟩
          | false =>
            obtain ⟨hcur3, hup3, htr3⟩ := htf3 rfl
            have htr : s3.trace = s.trace ++
                ([Event.enterCall (s.currentPage + 1) true] ++
                 ([Event.leaveCall (s.currentPage + 1) false] ++
                  [Event.enterCall (s.currentPage + 1) false])) := by
              rw [htr3]
              simp [List.append_assoc]
            exact ⟨s3, false, _, rfl, ⟨by omega, by omega, by omega, by omega⟩,
                   by omega, henf3, htr, by simp⟩
        | true =>
          rw [if_neg (by simp)]
          have hInv3 : Inv
              { s with currentPage := s.currentPage + 1,
                       pages := (s.pages.set j { s.pages[j] with
                           enterCount := (s.pages[j]).enterCount + 1 }).set j
                         { s.pages[j] with
                           enterCount := (s.pages[j]).enterCount + 1,
                           leaveCount := (s.pages[j]).leaveCount + 1 },
                       trace := (s.trace ++
                           [.enterCall (s.currentPage + 1) true]) ++
                         [.leaveCall (s.currentPage + 1) true],
                       upTo := if s.upTo < s.currentPage + 1
                               then s.currentPage + 1 else s.upTo } := by
            unfold Inv
            dsimp only
            simp only [List.length_set]
            exact ⟨by omega, by omega, by omega, by omega⟩
          obtain ⟨s', b, t, hrun, hI, hcnt', henf', htr', hfin⟩ :=
            IH _ hInv3 h0 (by dsimp only; omega) (by dsimp only; omega)
          refine ⟨s', b,
            [Event.enterCall (s.currentPage + 1) true,
             Event.leaveCall (s.currentPage + 1) true] ++ t,
            hrun, hI, by simpa using hcnt', by simpa using henf', ?_, ?_⟩
          · rw [htr']
            simp [List.append_assoc]
          · intro hb
            obtain ⟨hall, hcur⟩ := hfin hb
            refine ⟨?_, hcur⟩
            simp only [List.all_append, hall, Bool.and_true]
            simp [guardOk]

/-- Characterization of `change_page` from any invariant state (any
target, including out-of-range and defaulted ones): it never raises,
preserves the invariant, the page count and the policy flag, only appends
to the trace, and returns `True` only when every guard it ran accepted
(with the target becoming current). -/
theorem change_char (s : PageManager) (hInv : Inv s) (pid? : Option Int) :
    ∃ s' b t, change_page s pid? = some (s', b) ∧ Inv s' ∧
      s'.pageCount = s.pageCount ∧ s'.enforceUpto = s.enforceUpto ∧
      s'.trace = s.trace ++ t ∧
      (b = true → t.all guardOk = true ∧
        s'.currentPage = pid?.getD (s.currentPage + 1)) := by
  obtain ⟨hcnt, hm1, hltc, hz⟩ := hInv
  unfold change_page
  by_cases hout : pid?.getD (s.currentPage + 1) ≥ s.pageCount ∨
      pid?.getD (s.currentPage + 1) < 0
  · rw [if_pos hout]
    exact ⟨s, false, [], rfl, ⟨hcnt, hm1, hltc, hz⟩, rfl, rfl, by simp, by simp⟩
  · rw [if_neg hout]
    have h0' : 0 ≤ pid?.getD (s.currentPage + 1) := by omega
    have h1' : pid?.getD (s.currentPage + 1) < s.pageCount := by omega
    obtain ⟨s1, r, hcl, hlen1, hcount1, hcur1, hup1, henf1, htr1⟩ :=
      close_page_char s ⟨by omega, by omega⟩
    rw [hcl]
    dsimp only
    have hInv1 : Inv s1 := ⟨by omega, by omega, by omega, by omega⟩
    cases r with
    | false =>
      rw [if_pos rfl]
      exact ⟨s1, false, _, rfl, hInv1, hcount1, henf1, htr1, by simp⟩
    | true =>
      rw [if_neg (by simp)]
      by_cases hbk : pid?.getD (s.currentPage + 1) < s1.currentPage
      · rw [if_pos hbk]
        obtain ⟨s', b, t, hrun, hI, hcnt', henf', htr', hfin⟩ :=
          skip_char s1 hInv1 (pid?.getD (s.currentPage + 1)) h0' (by omega)
        refine ⟨s', b, [Event.leaveCall s.currentPage true] ++ t, hrun, hI,
                by omega, henf'.trans henf1, ?_, ?_⟩
        · rw [htr', htr1, List.append_assoc]
        · intro hb
          obtain ⟨hall, hcur⟩ := hfin hb
          exact ⟨by simp [List.all_append, hall, guardOk], hcur⟩
      · rw [if_neg hbk]
        obtain ⟨s', b, t, hrun, hI, hcnt', henf', htr', hfin⟩ :=
          skim_char (pid?.getD (s.currentPage + 1))
            ((pid?.getD (s.currentPage + 1) - s1.currentPage).toNat)
            s1 hInv1 h0' (by omega) (Nat.le_refl _)
        refine ⟨s', b, [Event.leaveCall s.currentPage true] ++ t, hrun, hI,
                by omega, henf'.trans henf1, ?_, ?_⟩
        · rw [htr', htr1, List.append_assoc]
        · intro hb
          obtain ⟨hall, hcur⟩ := hfin hb
          exact ⟨by simp [List.all_append, hall, guardOk], hcur⟩

/-- Characterization of `add_pages` from any invariant state: it never
raises, preserves the invariant and the policy flag, adds the new pages
to the count, and only appends to the trace. -/
theorem add_char (s : PageManager) (hInv : Inv s) (new : List Page) :
    ∃ s', add_pages s new = some s' ∧ Inv s' ∧
      s'.enforceUpto = s.enforceUpto ∧
      s'.pageCount = s.pageCount + new.length ∧
      s.trace <+: s'.trace := by
  obtain ⟨hcnt, hm1, hltc, hz⟩ := hInv
  unfold add_pages
  dsimp only
  by_cases hcond : s.currentPage < 0 ∧ s.pageCount + (new.length : Int) > 0
  · rw [if_pos hcond]
    have hin : inRange (s.pages ++ new).length (0 : Int) := by
      constructor <;> simp <;> omega
    obtain ⟨s2, b2, hO, hlen2, hcount2, henf2, htt2, htf2⟩ :=
      open_page_char
        { s with pages := s.pages ++ new,
                 pageCount := s.pageCount + new.length,
                 currentPage := 0 } none hin
    rw [hO]
    dsimp only
    dsimp only at hlen2 hcount2 henf2 htt2 htf2
    simp only [Option.getD_none] at htt2 htf2
    simp only [List.length_append] at hlen2
    cases b2 with
    | true =>
      obtain ⟨hcur2, hup2, htr2⟩ := htt2 rfl
      refine ⟨_, rfl, ⟨?_, ?_, ?_, ?_⟩, henf2, hcount2, ?_⟩
      · dsimp only
        omega
      · dsimp only
        omega
      · dsimp only
        omega
      · dsimp only
        omega
      · dsimp only
        rw [htr2, List.append_assoc]
        exact List.prefix_append _ _
    | false =>
      obtain ⟨hcur2, hup2, htr2⟩ := htf2 rfl
      refine ⟨_, rfl, ⟨?_, ?_, ?_, ?_⟩, henf2, hcount2, ?_⟩
      · dsimp only
        omega
      · dsimp only
        omega
      · dsimp only
        omega
      · dsimp only
        omega
      · dsimp only
        rw [htr2, List.append_assoc]
        exact List.prefix_append _ _
  · rw [if_neg hcond]
    dsimp only
    refine ⟨_, rfl, ⟨?_, ?_, ?_, ?_⟩, rfl, rfl,
            List.prefix_append _ _⟩
    · dsimp only
      simp only [List.length_append]
      omega
    · dsimp only
      omega
    · dsimp only
      omega
    · dsimp only
      omega

/-- Characterization of `remove_page` for a valid index from an invariant
state: it never raises and preserves the invariant. -/
theorem remove_char (s : PageManager) (hInv : Inv s) (pid : Int)
    (h0 : 0 ≤ pid) (h1 : pid < s.pageCount) :
    ∃ s', remove_page s pid = some s' ∧ Inv s' ∧
      s'.enforceUpto = s.enforceUpto ∧
      s'.pageCount = s.pageCount - 1 ∧
      s.trace <+: s'.trace := by
  obtain ⟨hcnt, hm1, hltc, hz⟩ := hInv
  unfold remove_page
  rw [pyIdx_nonneg h0 (by omega)]
  dsimp only
  have hlen' : (s.pages.eraseIdx pid.toNat).length = s.pages.length - 1 :=
    List.length_eraseIdx_of_lt (by omega)
  refine ⟨_, rfl, ⟨?_, ?_, ?_, ?_⟩, rfl, rfl, List.prefix_append _ _⟩ <;> dsimp only
  · rw [hlen']
    omega
  · split <;> omega
  · split <;> omega
  · split <;> omega

/-! ### Valid operation sequences and reachability -/

/-- A public operation of the controller. -/
inductive Op where
  | add (ps : List Page)
  | remove (pid : Int)
  | change (pid? : Option Int)
  | skip (pid : Int)

/-- Caller preconditions for each operation: `remove_page` and
`skip_to_page` take an id of an existing page (§7 calls anything else a
caller error); `change_page` validates its own argument and `add_pages`
accepts anything. -/
def validOp (s : PageManager) : Op → Prop
  | .add _ => True
  | .remove pid => 0 ≤ pid ∧ pid < s.pageCount
  | .change _ => True
  | .skip pid => 0 ≤ pid ∧ pid < s.pageCount

/-- Running one public operation (dropping the boolean result). -/
def applyOp (s : PageManager) : Op → Option PageManager
  | .add ps => add_pages s ps
  | .remove pid => remove_page s pid
  | .change pid? => (change_page s pid?).map Prod.fst
  | .skip pid => (skip_to_page s pid).map Prod.fst

/-- States reachable from a freshly constructed controller by valid
public operations. -/
inductive Reachable : PageManager → Prop
  | init (pages : List Page) (upTo : Int) (enforce : Bool) (s : PageManager) :
      mkPM pages upTo enforce = some s → Reachable s
  | step (s : PageManager) (op : Op) (s' : PageManager) :
      Reachable s → validOp s op → applyOp s op = some s' → Reachable s'

/-- Every valid operation from an invariant state succeeds (no exception)
and preserves the invariant. -/
theorem step_char (s : PageManager) (hInv : Inv s) (op : Op)
    (hv : validOp s op) :
    ∃ s', applyOp s op = some s' ∧ Inv s' := by
  cases op with
  | add ps =>
    obtain ⟨s', heq, hI, -, -, -⟩ := add_char s hInv ps
    exact ⟨s', heq, hI⟩
  | remove pid =>
    obtain ⟨h0, h1⟩ := hv
    obtain ⟨s', heq, hI, -, -, -⟩ := remove_char s hInv pid h0 h1
    exact ⟨s', heq, hI⟩
  | change pid? =>
    obtain ⟨s', b, t, heq, hI, -⟩ := change_char s hInv pid?
    exact ⟨s', by rw [applyOp, heq]; rfl, hI⟩
  | skip pid =>
    obtain ⟨h0, h1⟩ := hv
    obtain ⟨s', b, t, heq, hI, -⟩ := skip_char s hInv pid h0 h1
    exact ⟨s', by rw [applyOp, heq]; rfl, hI⟩

/-- The freshly set-up state satisfies the invariant. -/
theorem freshPM_inv (upTo : Int) (enforce : Bool) :
    Inv (freshPM upTo enforce) :=
  ⟨rfl, by norm_num [freshPM], by norm_num [freshPM], fun _ => rfl⟩

/-- Every reachable state satisfies the structural invariant. -/
theorem reachable_inv {s : PageManager} (h : Reachable s) : Inv s := by
  induction h with
  | init pages upTo enforce s hmk =>
    obtain ⟨s', heq, hI, -, -, -⟩ :=
      add_char (freshPM upTo enforce) (freshPM_inv upTo enforce) pages
    unfold mkPM at hmk
    rw [heq] at hmk
    injection hmk with h2
    exact h2 ▸ hI
  | step s op s' hre hv happ ih =>
    obtain ⟨s'', heq, hI⟩ := step_char s ih op hv
    rw [heq] at happ
    injection happ with h2
    exact h2 ▸ hI

/-! ### Concrete states used by scenarios, witnesses and counterexamples -/

/-- `pT` after one `enter_page()` call. -/
def pTe : Page := ⟨fun _ => true, fun _ => true, 1, 0⟩

/-- `pLF` after one `enter_page()` call. -/
def pLFe : Page := ⟨fun _ => true, fun _ => false, 1, 0⟩

/-- The empty controller `PageManager()` right after construction. -/
def s0empty : PageManager := ⟨[], 0, -1, -1, false, [.notifyPagesAdded 0]⟩

theorem s0empty_mk : mkPM [] (-1) false = some s0empty := rfl

/-- Scenario-B construction: four always-true pages, `up_to = 1`,
`enforce_upto = False`. -/
def sB : PageManager :=
  ⟨[pTe, pT, pT, pT], 4, 0, 1, false,
   [.enterCall 0 true, .notifyPageChanged 0, .notifyPagesAdded 4]⟩

theorem sB_mk : mkPM [pT, pT, pT, pT] 1 false = some sB := rfl

/-- Construction with a leave-vetoing first page (used to compare a guard
veto with an out-of-range failure). -/
def sV : PageManager :=
  ⟨[pLFe, pT], 2, 0, 0, false,
   [.enterCall 0 true, .notifyPageChanged 0, .notifyPagesAdded 2]⟩

theorem sV_mk : mkPM [pLF, pT] (-1) false = some sV := rfl

/-- Three always-true pages with `up_to = 0` (used for the observer
counterexample). -/
def sC8 : PageManager :=
  ⟨[pTe, pT, pT], 3, 0, 0, false,
   [.enterCall 0 true, .notifyPageChanged 0, .notifyPagesAdded 3]⟩

theorem sC8_mk : mkPM [pT, pT, pT] 0 false = some sC8 := rfl

/-- The state `sC8` reaches when its page 0 is reopened (the failure path
of `skip_to_page`). -/
def sC8r : PageManager :=
  ⟨[⟨fun _ => true, fun _ => true, 2, 0⟩, pT, pT], 3, 0, 0, false,
   [.enterCall 0 true, .notifyPageChanged 0, .notifyPagesAdded 3,
    .enterCall 0 true, .notifyPageChanged 0]⟩

theorem sC8r_open : open_page sC8 none = some (sC8r, true) := rfl

/-- A one-page always-true state (used as the refresh witness). -/
def sW : PageManager := ⟨[pT], 1, 0, 0, false, []⟩

/-- Two always-true pages after construction (used to reach the
`currentPage = -1` state by removing page 0). -/
def sR2 : PageManager :=
  ⟨[pTe, pT], 2, 0, 0, false,
   [.enterCall 0 true, .notifyPageChanged 0, .notifyPagesAdded 2]⟩

theorem sR2_mk : mkPM [pT, pT] (-1) false = some sR2 := rfl

/-- `sR2` after `remove_page(0)`: one page left but no current page. -/
def sR1 : PageManager :=
  ⟨[pT], 1, -1, -1, false,
   [.enterCall 0 true, .notifyPageChanged 0, .notifyPagesAdded 2,
    .notifyPageRemoved 0]⟩

theorem sR1_remove : remove_page sR2 0 = some sR1 := rfl

/-- A single-page state reached by construction with a rejecting enter
guard: the entry was vetoed, yet `_current_page` is 0 with `_up_to = -1`. -/
def sEF : PageManager :=
  ⟨[⟨fun _ => false, fun _ => true, 1, 0⟩], 1, 0, -1, false,
   [.enterCall 0 false, .notifyPagesAdded 1]⟩

theorem sEF_mk : mkPM [pEF] (-1) false = some sEF := rfl

/-! ### Claim theorems -/

/-- C1, amended.  After any sequence of valid public operations from a
freshly constructed controller, `pageCount` equals the number of managed
pages, `pageCount == 0` implies `currentPage == -1`, and
`-1 ≤ currentPage < pageCount`.  The original claim's stronger conjuncts —
the converse implication `currentPage == -1 → pageCount == 0`,
`0 ≤ currentPage` when `pageCount > 0`, and `currentPage ≤ upTo` — are
refuted by `C1_invariant_cex`. -/
theorem C1_invariant (s : PageManager) (h : Reachable s) :
    s.pageCount = (s.pages.length : Int) ∧
    (s.pageCount = 0 → s.currentPage = -1) ∧
    -1 ≤ s.currentPage ∧ s.currentPage < s.pageCount := by
  obtain ⟨a, b, c, d⟩ := reachable_inv h
  exact ⟨a, d, b, c⟩

theorem C1_invariant_witness :
    s0empty.pageCount = (s0empty.pages.length : Int) ∧
    (s0empty.pageCount = 0 → s0empty.currentPage = -1) ∧
    -1 ≤ s0empty.currentPage ∧ s0empty.currentPage < s0empty.pageCount :=
  C1_invariant s0empty (Reachable.init [] (-1) false s0empty rfl)

/-- C1 counterexample.  Two reachable states violate the claimed
invariant: (a) constructing with a single page whose enter guard rejects
yields `(upTo, pageCount, currentPage) = (-1, 1, 0)`, so `pageCount > 0`
but `currentPage = 0 > upTo = -1`, violating `currentPage ≤ upTo`;
(b) removing page 0 of two (the current page) yields `(-1, 1, -1)`, so
`currentPage = -1` with `pageCount = 1 ≠ 0`, violating the claimed
biconditional `pageCount == 0 ⇔ currentPage == -1` and `0 ≤ currentPage`. -/
theorem C1_invariant_cex :
    ((mkPM [pEF] (-1) false).map navOf = some (-1, 1, 0) ∧ ¬ ((0 : Int) ≤ -1)) ∧
    (((mkPM [pT, pT] (-1) false).bind (fun s => remove_page s 0)).map navOf =
        some (-1, 1, -1) ∧ (1 : Int) ≠ 0) :=
  ⟨⟨rfl, by decide⟩, ⟨rfl, by decide⟩⟩

/-- C5 (Scenario B).  Four always-true pages, `up_to = 1`,
`enforce_upto = False`: construction yields `(1, 4, 0)`; `skipToPage(3)`
fails (`3 > upTo + 1 = 2`) leaving `(1, 4, 0)`; a subsequent
`skipToPage(2)` succeeds, yielding `(2, 4, 2)`. -/
theorem C5_scenarioB :
    (mkPM [pT, pT, pT, pT] 1 false).map navOf = some (1, 4, 0) ∧
    ((mkPM [pT, pT, pT, pT] 1 false).bind
      (fun s => skip_to_page s 3)).map (fun r => (navOf r.1, r.2)) =
      some ((1, 4, 0), false) ∧
    (((mkPM [pT, pT, pT, pT] 1 false).bind (fun s => skip_to_page s 3)).bind
      (fun r => skip_to_page r.1 2)).map (fun r => (navOf r.1, r.2)) =
      some ((2, 4, 2), true) :=
  ⟨rfl, rfl, rfl⟩

/-- C6 (Scenarios C and D).  Scenario C: four pages with page 2's enter
guard `False`, `up_to = 2`; `changePage(2)` fails on the entry of page 2
and falls back to page 1, ending at `(2, 4, 1)` with a `False` return.
Scenario D: four pages with page 1's leave guard `False`, `up_to = 2`,
current page 0; `changePage(2)` skims into page 1, fails page 1's leave
guard, re-opens page 1 as the displayed current page, ending at
`(2, 4, 1)` with a `False` return. -/
theorem C6_scenarioCD :
    ((mkPM [pT, pT, pEF, pT] 2 false).bind
      (fun s => change_page s (some 2))).map (fun r => (navOf r.1, r.2)) =
      some ((2, 4, 1), false) ∧
    ((mkPM [pT, pLF, pT, pT] 2 false).bind
      (fun s => change_page s (some 2))).map (fun r => (navOf r.1, r.2)) =
      some ((2, 4, 1), false) := by
  constructor <;> (simp only [change_page_eval]; rfl)

/-- C7, amended.  An out-of-range `changePage` target mutates nothing
(the state, trace included, is returned unchanged, so no guard runs and
no observer notification fires) and reports failure with the same plain
boolean `False` a guard veto produces — there is no distinguishable
RangeError; see `C7_out_of_range_cex`. -/
theorem C7_out_of_range (s : PageManager) (pid : Int)
    (h : pid ≥ s.pageCount ∨ pid < 0) :
    change_page s (some pid) = some (s, false) := by
  unfold change_page
  exact if_pos h

theorem C7_out_of_range_witness : change_page sB (some 7) = some (sB, false) :=
  C7_out_of_range sB 7 (by decide)

/-- C7 counterexample.  On a controller with two pages whose current
page's leave guard vetoes, the out-of-range call `changePage(5)` and the
guard-vetoed call `changePage(1)` both return the same plain `False`
(and raise nothing): the RangeError is not distinguishable from a guard
veto. -/
theorem C7_out_of_range_cex :
    (change_page sV (some 5)).map (fun r => r.2) = some false ∧
    (change_page sV (some 1)).map (fun r => r.2) = some false :=
  ⟨rfl, rfl⟩

/-- C3, amended.  From any invariant state with no current page
(`currentPage < 0`), `addPages` with at least one page attempts to open
page 0 (its enter guard is invoked, as witnessed by the `enterCall 0`
event); but whether or not that entry is accepted, `currentPage` is set
to 0 — it does *not* stay `-1` on rejection (refuted by
`C3_first_add_cex`), because `add_pages` assigns `_current_page = 0`
before calling `_open_page()`. -/
theorem C3_first_add (s : PageManager) (hInv : Inv s)
    (hneg : s.currentPage < 0) (new : List Page) (hne : new ≠ []) :
    ∃ s', add_pages s new = some s' ∧ s'.currentPage = 0 ∧
      ∃ b, Event.enterCall 0 b ∈ s'.trace := by
  obtain ⟨hcnt, hm1, hltc, hz⟩ := hInv
  have hlen : 0 < new.length := List.length_pos.mpr hne
  unfold add_pages
  dsimp only
  rw [if_pos ⟨hneg, by omega⟩]
  have hin : inRange (s.pages ++ new).length (0 : Int) := by
    constructor <;> simp <;> omega
  obtain ⟨s2, b2, hO, hlen2, hcount2, henf2, htt2, htf2⟩ :=
    open_page_char
      { s with pages := s.pages ++ new,
               pageCount := s.pageCount + new.length,
               currentPage := 0 } none hin
  rw [hO]
  dsimp only
  dsimp only at htt2 htf2
  simp only [Option.getD_none] at htt2 htf2
  cases b2 with
  | true =>
    obtain ⟨hcur2, -, htr2⟩ := htt2 rfl
    refine ⟨_, rfl, by dsimp only; exact hcur2, true, ?_⟩
    dsimp only
    rw [htr2]
    simp
  | false =>
    obtain ⟨hcur2, -, htr2⟩ := htf2 rfl
    refine ⟨_, rfl, by dsimp only; exact hcur2, false, ?_⟩
    dsimp only
    rw [htr2]
    simp

theorem C3_first_add_witness :
    ∃ s', add_pages sR1 [pT] = some s' ∧ s'.currentPage = 0 ∧
      ∃ b, Event.enterCall 0 b ∈ s'.trace :=
  C3_first_add sR1 ⟨rfl, by decide, by decide, by decide⟩ (by decide)
    [pT] (by simp)

/-- C3 counterexample.  Construct a fresh controller and add one page
whose enter guard rejects: the claim says `currentPage` stays `-1`, but
the code sets it to 0. -/
theorem C3_first_add_cex :
    (add_pages (freshPM (-1) false) [pEF]).map (fun s => s.currentPage) =
      some 0 ∧ (0 : Int) ≠ -1 :=
  ⟨rfl, by decide⟩

/-- C4, amended.  The `upTo + 1` policy denial in `skip_to_page` is
unconditional: `enforce_upto` is never consulted there.  Even with
`enforceUpTo = false`, any target with `id > upTo + 1` is denied — the
call returns `False` with the current page merely reopened (its index
unchanged) and the target page's enter guard never consulted.  The
original claim (denial only under `enforceUpTo`, direct open otherwise)
is refuted by `C4_denial_cex`. -/
theorem C4_denial (s : PageManager) (hInv : Inv s) (hcnt0 : 0 < s.pageCount)
    (henf : s.enforceUpto = false) (pid : Int) (hgt : pid > s.upTo + 1) :
    ∃ s', skip_to_page s pid = some (s', false) ∧
      s'.currentPage = s.currentPage ∧ s'.pageCount = s.pageCount := by
  obtain ⟨hc, hm1, hlt, hz⟩ := hInv
  unfold skip_to_page
  rw [if_pos hgt]
  have hin : inRange s.pages.length s.currentPage := ⟨by omega, by omega⟩
  obtain ⟨s1, b1, hE, hlen, hcount, henf1, htt, htf⟩ :=
    open_page_char s none hin
  rw [hE]
  dsimp only
  cases b1 with
  | true =>
    obtain ⟨hcur1, -, -⟩ := htt rfl
    simp only [Option.getD_none] at hcur1
    exact ⟨s1, rfl, hcur1, hcount⟩
  | false =>
    obtain ⟨hcur1, -, -⟩ := htf rfl
    exact ⟨s1, rfl, hcur1, hcount⟩

theorem C4_denial_witness :
    ∃ s', skip_to_page sB 3 = some (s', false) ∧
      s'.currentPage = sB.currentPage ∧ s'.pageCount = sB.pageCount :=
  C4_denial sB ⟨rfl, by decide, by decide, by decide⟩ (by decide) rfl 3
    (by decide)

/-- C4 counterexample.  Scenario B's own controller has
`enforceUpTo = false`, four pages whose enter guards all accept, and
`upTo = 1`.  The claim demands that `skipToPage(3)` (in-range) open page
3 directly and succeed; the code instead denies the jump: it returns
`False`, leaves `currentPage = 0`, and the whole trace of the call shows
only a reopen of page 0 — page 3's enter guard is never invoked. -/
theorem C4_denial_cex :
    sB.enforceUpto = false ∧ pT.enter 0 = true ∧
    (skip_to_page sB 3).map (fun r => (r.1.trace, r.2)) =
      some (sB.trace ++ [Event.enterCall 0 true, Event.notifyPageChanged 0],
            false) :=
  ⟨rfl, rfl, rfl⟩

/-- C8, amended.  A failing `skip_to_page` (or the `skip_to_page` tail of
a failing `change_page`) does notify the observer: whenever the target is
policy-denied (`pid > upTo + 1`) and the reopen of the current page
succeeds, the call returns `False` yet appends a
`notifyPageChanged` observer notification (from `_open_page`'s success
path).  The original claim — no notification on a failed operation — is
refuted by `C8_observer_cex`. -/
theorem C8_failed_skip_notifies (s s1 : PageManager) (pid : Int)
    (hgt : pid > s.upTo + 1) (hopen : open_page s none = some (s1, true)) :
    skip_to_page s pid = some (s1, false) ∧
    s1.trace = s.trace ++ [Event.enterCall s.currentPage true,
                           Event.notifyPageChanged s.currentPage] := by
  constructor
  · unfold skip_to_page
    rw [if_pos hgt, hopen]
  · unfold open_page at hopen
    dsimp only at hopen
    cases hE : callEnter s.pages s.currentPage with
    | none =>
      rw [show callEnter s.pages (none.getD s.currentPage) =
            callEnter s.pages s.currentPage from rfl, hE] at hopen
      cases hopen
    | some pr =>
      obtain ⟨ps, r⟩ := pr
      rw [show callEnter s.pages (none.getD s.currentPage) =
            callEnter s.pages s.currentPage from rfl, hE] at hopen
      dsimp only at hopen
      cases r with
      | false => simp at hopen
      | true =>
        rw [if_pos rfl] at hopen
        have h := Option.some.inj hopen
        have h1 := congrArg Prod.fst h
        dsimp only at h1
        rw [← h1]
        simp [Option.getD_none]

theorem C8_failed_skip_notifies_witness :
    skip_to_page sC8 2 = some (sC8r, false) ∧
    sC8r.trace = sC8.trace ++ [Event.enterCall sC8.currentPage true,
                               Event.notifyPageChanged sC8.currentPage] :=
  C8_failed_skip_notifies sC8 sC8r 2 (by decide) sC8r_open

/-- C8 counterexample.  On three always-true pages with `upTo = 0`,
`skipToPage(2)` fails (`2 > upTo + 1 = 1`) and returns `False`, yet its
trace gains a `notifyPageChanged 0` observer notification from reopening
page 0: the observer is notified during a failed operation, contradicting
the claim. -/
theorem C8_observer_cex :
    (skip_to_page sC8 2).map (fun r => (r.1.trace, r.2)) =
      some (sC8.trace ++ [Event.enterCall 0 true, Event.notifyPageChanged 0],
            false) :=
  rfl

/-- A page whose enter guard accepts on its first call only (a stateful
guard, as anticipated by `PageManager.__init__`'s docstring: "pages with
enter_page() ... methods that return True on their first call"). -/
def pOnce : Page := mkPage (fun n => n == 0) (fun _ => true)

/-- C2, amended.  For every reachable state and in-range target: a
`change_page` or `skip_to_page` call never raises, only appends to the
trace, leaves a state satisfying the structural invariant `Inv`, and if
any guard it ran vetoed (returned `false`) the call reports failure.
The original claim's stronger guarantee — that the resulting state is a
valid, previously-reachable configuration — fails: after a vetoed skim
whose fallback reopen is also vetoed, `currentPage` can point at a page
whose entry was rejected, with `currentPage > upTo` (see
`C2_guard_veto_cex`). -/
theorem C2_guard_veto (s : PageManager) (hs : Reachable s) (pid : Int)
    (h0 : 0 ≤ pid) (h1 : pid < s.pageCount) :
    (∃ s' b t, change_page s (some pid) = some (s', b) ∧ Inv s' ∧
        s'.trace = s.trace ++ t ∧
        ((∃ e ∈ t, guardOk e = false) → b = false)) ∧
    (∃ s' b t, skip_to_page s pid = some (s', b) ∧ Inv s' ∧
        s'.trace = s.trace ++ t ∧
        ((∃ e ∈ t, guardOk e = false) → b = false)) := by
  have hInv := reachable_inv hs
  constructor
  · obtain ⟨s', b, t, heq, hI, -, -, htr, hfin⟩ := change_char s hInv (some pid)
    refine ⟨s', b, t, heq, hI, htr, ?_⟩
    rintro ⟨e, he, hg⟩
    cases b with
    | false => rfl
    | true =>
      obtain ⟨hall, -⟩ := hfin rfl
      have hok := List.all_eq_true.mp hall e he
      rw [hg] at hok
      cases hok
  · obtain ⟨s', b, t, heq, hI, -, -, htr, hfin⟩ := skip_char s hInv pid h0 h1
    refine ⟨s', b, t, heq, hI, htr, ?_⟩
    rintro ⟨e, he, hg⟩
    cases b with
    | false => rfl
    | true =>
      obtain ⟨hall, -⟩ := hfin rfl
      have hok := List.all_eq_true.mp hall e he
      rw [hg] at hok
      cases hok

theorem C2_guard_veto_witness :
    (∃ s' b t, change_page sV (some 1) = some (s', b) ∧ Inv s' ∧
        s'.trace = sV.trace ++ t ∧
        ((∃ e ∈ t, guardOk e = false) → b = false)) ∧
    (∃ s' b t, skip_to_page sV 1 = some (s', b) ∧ Inv s' ∧
        s'.trace = sV.trace ++ t ∧
        ((∃ e ∈ t, guardOk e = false) → b = false)) :=
  C2_guard_veto sV (Reachable.init [pLF, pT] (-1) false sV sV_mk) 1
    (by decide) (by decide)

/-- C2 counterexample.  Pages `[pT, pOnce, pEF, pT]` where page 1's enter
guard accepts only its first call and page 2's enter guard always
rejects.  After construction the run's navigation states are `(-1, 0, -1)`
(fresh) and `(0, 4, 0)` (constructed).  `changePage(3)` skims through
page 1 (raising `upTo` to 1), hits page 2's enter veto
(`enterCall 2 false` is in the trace), falls back to reopen page 1 whose
enter guard now rejects too — and ends at `(upTo, pageCount, currentPage)
= (1, 4, 2)` with a `False` return.  That configuration has
`currentPage = 2 > upTo = 1` (violating the §3 validity invariant
`currentPage ≤ upTo`) and equals neither of the two previously reached
configurations: the state is partially transitioned, refuting the claim. -/
theorem C2_guard_veto_cex :
    (mkPM [pT, pOnce, pEF, pT] (-1) false).map navOf = some (0, 4, 0) ∧
    ((mkPM [pT, pOnce, pEF, pT] (-1) false).bind
        (fun s => change_page s (some 3))).map (fun r => (navOf r.1, r.2)) =
      some ((1, 4, 2), false) ∧
    ((mkPM [pT, pOnce, pEF, pT] (-1) false).bind
        (fun s => change_page s (some 3))).map
        (fun r => decide (Event.enterCall 2 false ∈ r.1.trace)) = some true ∧
    ¬ ((2 : Int) ≤ 1) ∧
    ((1, 4, 2) : Int × Int × Int) ≠ (-1, 0, -1) ∧
    ((1, 4, 2) : Int × Int × Int) ≠ (0, 4, 0) := by
  refine ⟨rfl, ?_, ?_, by decide, by decide, by decide⟩
  · simp only [change_page_eval]
    rfl
  · simp only [change_page_eval]
    rfl

/-- C9.  Refresh idempotence: from any controller state with a displayed
page (`0 ≤ currentPage < pageCount`, with `currentPage ≤ upTo` — the §3
invariant every state reachable with always-true guards satisfies, since
every successful open raises `upTo` to at least `currentPage`) whose
pages' guards all constantly return `true`, `changePage(currentPage)`
succeeds and leaves `currentPage`, `upTo` and `pageCount` unchanged. -/
theorem C9_refresh (s : PageManager)
    (hlen : s.pageCount = (s.pages.length : Int))
    (h0 : 0 ≤ s.currentPage) (h1 : s.currentPage < s.pageCount)
    (h2 : s.currentPage ≤ s.upTo)
    (hT : ∀ p ∈ s.pages, (∀ n, p.enter n = true) ∧ (∀ n, p.leave n = true)) :
    ∃ s', change_page s (some s.currentPage) = some (s', true) ∧
      s'.currentPage = s.currentPage ∧ s'.upTo = s.upTo ∧
      s'.pageCount = s.pageCount := by
  have hjlt : s.currentPage.toNat < s.pages.length := by omega
  have hj : pyIdx s.pages.length s.currentPage = some s.currentPage.toNat :=
    pyIdx_nonneg h0 (by omega)
  have hp := List.getElem?_eq_getElem hjlt
  have hTpg := hT _ (List.getElem?_mem hp)
  unfold change_page
  rw [if_neg (by simp only [Option.getD_some]; omega)]
  rw [close_page_eq hj hp]
  dsimp only
  rw [hTpg.2 _]
  rw [if_neg (by simp)]
  rw [if_neg (by simp only [Option.getD_some]; omega)]
  rw [skimLoop, dif_neg (can_skim_next_false
    (by simp only [Option.getD_some]; omega))]
  unfold skip_to_page
  rw [if_neg (by simp only [Option.getD_some]; omega)]
  have hj1 : pyIdx (s.pages.set s.currentPage.toNat
      { s.pages[s.currentPage.toNat] with
        leaveCount := (s.pages[s.currentPage.toNat]).leaveCount + 1 }).length
      ((some ((some s.currentPage).getD (s.currentPage + 1))).getD
        ({ s with
          pages := s.pages.set s.currentPage.toNat
            { s.pages[s.currentPage.toNat] with
              leaveCount := (s.pages[s.currentPage.toNat]).leaveCount + 1 },
          trace := s.trace ++
            [Event.leaveCall s.currentPage true] }).currentPage) =
      some s.currentPage.toNat := by
    simp only [Option.getD_some, List.length_set]
    exact hj
  have hp1 := List.getElem?_set_self (l := s.pages)
    (a := { s.pages[s.currentPage.toNat] with
            leaveCount := (s.pages[s.currentPage.toNat]).leaveCount + 1 })
    hjlt
  rw [open_page_eq hj1 hp1]
  dsimp only
  rw [hTpg.1 _, if_pos rfl]
  refine ⟨_, rfl, ?_, ?_, rfl⟩
  · simp only [Option.getD_some]
  · dsimp only
    simp only [Option.getD_some]
    rw [if_neg (by omega)]

theorem C9_refresh_witness :
    ∃ s', change_page sW (some sW.currentPage) = some (s', true) ∧
      s'.currentPage = sW.currentPage ∧ s'.upTo = sW.upTo ∧
      s'.pageCount = sW.pageCount :=
  C9_refresh sW rfl (by decide) (by decide) (by decide)
    (by
      intro p hp
      simp only [sW, List.mem_singleton] at hp
      subst hp
      exact ⟨fun _ => rfl, fun _ => rfl⟩)

/-- C10.  In a state with `pageCount > 0` but `currentPage = -1`
(reachable by removing the current page 0 while another page remains,
see `C10_minus_one_witness` built from `sR1`), the Python index `-1` is
silently treated as the last position: `get_page()` with no argument
returns the last page of the sequence, and `change_page()` with its
default target runs the last page's leave guard as the "current" page's
leave guard (the `leaveCall (-1)` event in the trace records exactly
that guard's verdict). -/
theorem C10_minus_one (s : PageManager) (h1 : s.currentPage = -1)
    (h2 : 0 < s.pageCount) (h3 : s.pageCount = (s.pages.length : Int)) :
    ∃ p, s.pages[s.pages.length - 1]? = some p ∧
      get_page s none = some p ∧
      ∃ s' b, change_page s none = some (s', b) ∧
        Event.leaveCall (-1) (p.leave p.leaveCount) ∈ s'.trace := by
  have hlen : 0 < s.pages.length := by omega
  have hjlt : s.pages.length - 1 < s.pages.length := by omega
  have hj : pyIdx s.pages.length s.currentPage =
      some (s.pages.length - 1) := by
    rw [h1, pyIdx_neg (by omega) (by omega)]
    congr 1
    omega
  have hp := List.getElem?_eq_getElem hjlt
  refine ⟨s.pages[s.pages.length - 1], hp, ?_, ?_⟩
  · unfold get_page
    dsimp only
    rw [show (none : Option Int).getD s.currentPage = s.currentPage from rfl,
        hj]
    exact hp
  · unfold change_page
    dsimp only
    rw [show (none : Option Int).getD (s.currentPage + 1) =
          s.currentPage + 1 from rfl]
    rw [if_neg (by omega)]
    rw [close_page_eq hj hp]
    dsimp only
    cases hr : (s.pages[s.pages.length - 1]).leave
        (s.pages[s.pages.length - 1]).leaveCount with
    | false =>
      rw [if_pos rfl]
      refine ⟨_, false, rfl, ?_⟩
      dsimp only
      rw [h1]
      simp
    | true =>
      rw [if_neg (by simp)]
      rw [if_neg (by omega)]
      obtain ⟨s', b, t, hrun, -, -, -, htr', -⟩ :=
        skim_char (s.currentPage + 1)
          ((s.currentPage + 1 - s.currentPage).toNat)
          { s with
            pages := s.pages.set (s.pages.length - 1) { s.pages[s.pages.length - 1] with
              leaveCount := (s.pages[s.pages.length - 1]).leaveCount + 1 },
            trace := s.trace ++ [.leaveCall s.currentPage true] }
          ⟨by dsimp only; rw [List.length_set]; omega,
           by dsimp only; omega,
           by dsimp only; omega,
           by dsimp only; omega⟩
          (by omega) (by dsimp only; omega) (by dsimp only; omega)
      refine ⟨s', b, hrun, ?_⟩
      rw [htr']
      dsimp only
      rw [h1]
      simp

theorem C10_minus_one_witness :
    ∃ p, sR1.pages[sR1.pages.length - 1]? = some p ∧
      get_page sR1 none = some p ∧
      ∃ s' b, change_page sR1 none = some (s', b) ∧
        Event.leaveCall (-1) (p.leave p.leaveCount) ∈ s'.trace :=
  C10_minus_one sR1 rfl (by decide) (by decide)

end ProgressionGUI
